import Mathlib

/-!
Shallow embedding of the ripgrep-napi search component
(`src/native/ripgrep-napi/src/lib.rs`).

The embedding models the code as pure Lean functions.  External
collaborators (the `ignore` directory walker, the `grep` regex engine and
line scanner) are modelled as an explicit environment of oracle functions,
following the spec's own interface boundary (spec section 1 and 6): the
search orchestrator consumes the walker as a finite entry sequence and the
line scanner as a per-file stream of matched-line events that it feeds to
its `Sink`.

`glob_match` is embedded concretely: the source translates the glob by
three sequential single-character `str::replace` calls and hands the result
to `regex::Regex::new` wrapped in `^...$`, then `.unwrap()`s.  Since each
replacement target is a single character and no replacement reintroduces a
later target, the triple replace is the character-wise map `globChar`.
The regex engine is modelled exactly on the fragment that the translation
of backslash-free glob patterns can produce: escaped metacharacters,
literal non-metacharacter characters, `.` (which, as in the engine, does
not match a newline), and postfix `*`/`+` on those atoms.  On this
fragment `rmatch` agrees with `regex::Regex::is_match` of the anchored
pattern.  `parseRegex` yields `none` outside the fragment; a bare
metacharacter may be genuinely invalid for the engine (an unclosed
character class) or valid (a balanced group, alternation, an anchor), so
`none` overapproximates the engine's compile errors.  Accordingly, every
theorem that concludes a panic from `none` restricts its glob to a family
on which the engine certainly errors — a `[` with no `]` and no escapes,
an unclosed character class — and the glob-semantics theorem restricts its
pattern to the metacharacter-free fragment and its filename to
newline-free strings.
-/

set_option linter.unusedVariables false

/-- Atoms of the regex fragment produced by glob translation. -/
inductive RAtom where
  | dot : RAtom
  | lit : Char → RAtom
deriving DecidableEq

/-- A regex token: an atom, optionally under a postfix `*` or `+`. -/
inductive RTok where
  | atom : RAtom → RTok
  | star : RAtom → RTok
  | plus : RAtom → RTok
deriving DecidableEq

/-- Whether a regex atom matches one character.  As in the regex crate
(without the `s` flag), `.` matches any character except a newline. -/
def atomMatch : RAtom → Char → Bool
  | RAtom.dot, d => !(d == '\n')
  | RAtom.lit c, d => c == d

/-- All suffixes of `s` reachable by consuming a (possibly empty) run of
characters matching atom `a`, longest-remaining first. -/
def starSuffixes (a : RAtom) : List Char → List (List Char)
  | [] => [[]]
  | c :: cs => (c :: cs) :: (if atomMatch a c then starSuffixes a cs else [])

/-- Full-string matching of a token sequence, modelling
`regex::Regex::is_match` on an `^...$`-anchored pattern of this fragment. -/
def rmatch : List RTok → List Char → Bool
  | [], s => s.isEmpty
  | RTok.atom a :: ts, [] => false
  | RTok.atom a :: ts, c :: cs => atomMatch a c && rmatch ts cs
  | RTok.star a :: ts, s => (starSuffixes a s).any (fun s2 => rmatch ts s2)
  | RTok.plus a :: ts, [] => false
  | RTok.plus a :: ts, c :: cs => atomMatch a c && (starSuffixes a cs).any (fun s2 => rmatch ts s2)

/-- Characters on which a bare occurrence puts the pattern outside the
modelled fragment.  A bare metacharacter may be a genuine `Regex::new`
error (an unclosed `[`) or valid full-engine syntax (a balanced group,
alternation, an anchor), so the parser's resulting `none` must only be
read as a panic under hypotheses that make the pattern certainly invalid;
the panic theorems below restrict themselves that way.  `{` and `}` are
written with `\x7b`/`\x7d` escapes. -/
def isMeta (c : Char) : Bool :=
  c == '*' || c == '+' || c == '?' || c == '(' || c == ')' || c == '[' || c == ']' ||
  c == '\x7b' || c == '\x7d' || c == '|' || c == '^' || c == '$'

/-- Close a pending atom (one not followed by a quantifier) as a plain
atom token in front of the already-parsed remainder. -/
def pushPend : Option RAtom → List RTok → List RTok
  | some a, ts => RTok.atom a :: ts
  | none, ts => ts

/-- Escape payloads the fragment models: escaping one of the engine's
metacharacters certainly denotes that literal character.  Other payloads
are outside the fragment (an escaped ordinary letter such as `\q` is a
genuine "unrecognized escape" error, while `\d` or `\n` are a class and a
control escape the engine accepts); the glob translation itself only ever
produces the escape `\.`, and no theorem evaluates `glob_match` on a
pattern containing a backslash. -/
def escLiteral (c : Char) : Bool :=
  c == '.' || c == '*' || c == '+' || c == '?' || c == '(' || c == ')' || c == '[' ||
  c == ']' || c == '\x7b' || c == '\x7d' || c == '|' || c == '^' || c == '$' || c == '\\'

/-- Worker of the fragment parser.  `pend` is the most recent atom, still
waiting to see whether a quantifier follows it.  `none` marks patterns
outside the modelled fragment: a quantifier with no pending atom, a
dangling escape, an escape with an unmodelled payload, or a bare
metacharacter (see `isMeta` for how `none` relates to the engine's real
error set). -/
def parseRegexGo : Option RAtom → List Char → Option (List RTok)
  | pend, [] => some (pushPend pend [])
  | pend, c :: rest =>
    if c = '*' then
      match pend with
      | some a => (parseRegexGo none rest).map (fun ts => RTok.star a :: ts)
      | none => none
    else if c = '+' then
      match pend with
      | some a => (parseRegexGo none rest).map (fun ts => RTok.plus a :: ts)
      | none => none
    else if c = '\\' then
      match rest with
      | [] => none
      | d :: rest2 =>
        if escLiteral d then
          (parseRegexGo (some (RAtom.lit d)) rest2).map (fun ts => pushPend pend ts)
        else none
    else if isMeta c then none
    else
      (parseRegexGo (some (if c = '.' then RAtom.dot else RAtom.lit c)) rest).map
        (fun ts => pushPend pend ts)

/-- Parser for the regex fragment: a sequence of atoms (escaped character,
`.`, or plain character), each optionally followed by `*` or `+`. -/
def parseRegex (l : List Char) : Option (List RTok) :=
  parseRegexGo none l

/-- The character-wise glob-to-regex translation: the three sequential
`replace` calls of the source (`.` to `\.`, then `*` to `.*`, then `?` to
`.`) are equivalent to this single map because each target is one character
and no replacement output contains a later target. -/
def globChar (c : Char) : List Char :=
  if c = '.' then ['\\', '.']
  else if c = '*' then ['.', '*']
  else if c = '?' then ['.']
  else [c]

/-- Glob pattern translated to the body of the anchored regex. -/
def globTranslate (p : List Char) : List Char :=
  p.flatMap globChar

/-- `fn glob_match(pattern: &str, text: &str) -> bool`.
Within the modelled fragment, `some b` is the value of
`re.is_match(text)` and `none` is the `.unwrap()` panic on a pattern the
engine rejects; outside the fragment `none` only means "not modelled", and
theorems reading it as a panic carry hypotheses that make the pattern
certainly invalid. -/
def glob_match (pattern text : String) : Option Bool :=
  (parseRegex (globTranslate pattern.data)).map (fun ts => rmatch ts text.data)

/-- Modelled from the spec: the GlobFilter semantics in its own words —
an anchored full-string match where `*` matches any run of characters,
`?` matches exactly one character, and every other character (including
`.`) only matches itself. -/
def specGlob : List Char → List Char → Bool
  | [], s => s.isEmpty
  | p :: ps, s =>
    if p = '*' then s.tails.any (fun s2 => specGlob ps s2)
    else if p = '?' then
      match s with
      | [] => false
      | _ :: cs => specGlob ps cs
    else
      match s with
      | [] => false
      | c :: cs => p == c && specGlob ps cs

/-- Characters whose translation survives into the regex as something other
than a plain atom or glob quantifier: on these the source's translation
leaks regex semantics (they are passed through unescaped). -/
def badGlobChar (c : Char) : Bool :=
  c == '\\' || c == '+' || c == '(' || c == ')' || c == '[' || c == ']' ||
  c == '\x7b' || c == '\x7d' || c == '|' || c == '^' || c == '$'

/-- Glob patterns built only from `*`, `?`, `.` and ordinary characters. -/
def plainGlob (p : List Char) : Bool :=
  p.all (fun c => !badGlobChar c)

/-- The regex token a single plain glob character translates to. -/
def tokChar (c : Char) : RTok :=
  if c = '*' then RTok.star RAtom.dot
  else if c = '?' then RTok.atom RAtom.dot
  else RTok.atom (RAtom.lit c)

/-! ## Data model of the search component -/

/-- `struct SubMatch` — a half-open span within the line
(`stop` renders the source's `end` field, a reserved word here). -/
structure SubMatch where
  start : Nat
  stop : Nat
deriving DecidableEq

/-- `struct RipgrepMatch` — one located occurrence. -/
structure RipgrepMatch where
  path : String
  line : Nat
  column : Nat
  text : String
  submatches : List SubMatch
deriving DecidableEq

/-- `struct RipgrepOptions` — one request. -/
structure RipgrepOptions where
  pattern : String
  path : String
  case_insensitive : Option Bool
  glob : Option String
  max_depth : Option Nat
  max_results : Option Nat
  before_context : Option Nat
  after_context : Option Nat
  files_with_matches : Option Bool
  include_hidden : Option Bool
deriving DecidableEq

/-- `struct RipgrepResult` — the report.  `elapsed_ms` (wall-clock time) is
outside the embedding and omitted; no claim mentions it. -/
structure RipgrepResult where
  «matches» : List RipgrepMatch
  files_searched : Nat
  total_matches : Nat
  truncated : Bool
deriving DecidableEq

/-- One `SinkMatch` delivered by the grep searcher to the sink: the
absolute line number, the first line of the match, and the submatch spans
in order. -/
structure LineInfo where
  line_number : Nat
  text : String
  submatches : List SubMatch
deriving DecidableEq

/-- A walker entry, as the orchestrator consumes it: whether
`entry.file_type()` is a regular file, `path.file_name()`, the full path,
and the file content handed to the line scanner. -/
structure DirEntry where
  is_file : Bool
  file_name : Option String
  path : String
  content : String
deriving DecidableEq

/-- The configuration the source feeds into `ignore::WalkBuilder`:
root path, `.hidden(!include_hidden)`, `.git_ignore(true)`, `.max_depth`,
and whether `.add_custom_ignore_filename(".rgignore")` was applied (the
source applies it exactly when a glob is present). -/
structure WalkConfig where
  path : String
  hidden : Bool
  git_ignore : Bool
  max_depth : Option Nat
  custom_rgignore : Bool
deriving DecidableEq

/-- The external collaborators, per the spec's interface boundary:
`walk` is the `ignore` walker (a `none` item is an `Err` entry, skipped by
the loop); `regexBuild` tells whether
`RegexMatcherBuilder{case_insensitive}.build(pattern)` succeeds; `scan` is
the grep searcher: given the matcher configuration
(case-insensitivity, before/after context, pattern) and a file's content it
yields the matched-line events, in line order, that `search_path` would
deliver to the sink. -/
structure Env where
  walk : WalkConfig → List (Option DirEntry)
  regexBuild : Bool → String → Bool
  scan : Bool → Nat → Nat → String → String → List LineInfo

/-- A fatal outcome of one search call.  `regexError` is the
`Error::from_reason("Regex error: ...")` value returned through `?`;
`panic` marks the `.unwrap()` panic inside `glob_match`, which is not an
error return value at all. -/
inductive SearchErr where
  | regexError : SearchErr
  | panic : SearchErr
deriving DecidableEq

/-- `struct RipgrepSearcher` — the stateful handle.  The first three fields
are frozen into the matcher builder and the grep searcher by `new`; the
two middle fields model the `Arc<Mutex<...>>` accumulators; `max_results`
is stored directly. -/
structure RipgrepSearcher where
  case_insensitive : Bool
  before_context : Nat
  after_context : Nat
  results : List RipgrepMatch
  files_searched : Nat
  max_results : Option Nat
deriving DecidableEq

/-- `RipgrepSearcher::new` — captures `case_insensitive`, the context
settings and `max_results` from the construction-time options and starts
with empty accumulators. -/
def RipgrepSearcher.new (opts : RipgrepOptions) : RipgrepSearcher :=
  { case_insensitive := opts.case_insensitive.getD false
    before_context := opts.before_context.getD 0
    after_context := opts.after_context.getD 0
    results := []
    files_searched := 0
    max_results := opts.max_results }

/-- `struct MatchSink` — the per-file sink bound to the shared
accumulator. -/
structure MatchSink where
  path : String
  results : List RipgrepMatch
  max_results : Option Nat
  stopped : Bool
deriving DecidableEq

/-- The `RipgrepMatch` record `MatchSink::matched` constructs from one
`SinkMatch`: column is the start of the first submatch, or 0. -/
def mkEntry (path : String) (mat : LineInfo) : RipgrepMatch :=
  { path := path
    line := mat.line_number
    column := ((mat.submatches.head?).map SubMatch.start).getD 0
    text := mat.text
    submatches := mat.submatches }

/-- `MatchSink::matched`: if a cap is configured and the accumulator has
already reached it, set `stopped` and refuse (return `false`) without
appending; otherwise append the match record and return `!stopped`. -/
def MatchSink.matched (sink : MatchSink) (mat : LineInfo) : MatchSink × Bool :=
  if (match sink.max_results with
      | some max => decide (max ≤ sink.results.length)
      | none => false) then
    ({ sink with stopped := true }, false)
  else
    ({ sink with results := sink.results ++ [mkEntry sink.path mat] }, !sink.stopped)

/-- The grep searcher's driving of the sink: deliver each matched-line
event in order, stopping as soon as the sink returns `false`. -/
def runSink (sink : MatchSink) : List LineInfo → MatchSink
  | [] => sink
  | mat :: rest =>
    let r := MatchSink.matched sink mat
    if r.2 then runSink r.1 rest else r.1

/-- The glob check of the loop body: `Some true` means skip this file
(`continue`), `Some false` means scan it, `none` means `glob_match`
panicked.  When the entry has no file name, or no glob is configured, the
file is scanned. -/
def globSkip : Option String → Option String → Option Bool
  | some g, some name => (glob_match g name).map (fun b => !b)
  | _, _ => some false

/-- The `for entry in walker` loop of `RipgrepSearcher::search`, with the
accumulated matches, the `files_searched` counter and a count of
`self.matcher.build(&opts.pattern)` invocations threaded through.
Per iteration: skip `Err` entries and non-files; apply the glob filter
(propagating the `glob_match` panic); build the matcher — its failure
aborts the whole call through `?`; scan the file through a fresh sink;
increment `files_searched`; and stop the walk if the sink stopped. -/
def searchLoop (env : Env) (ci : Bool) (bc ac : Nat) (maxr : Option Nat)
    (pattern : String) (glob : Option String) :
    List (Option DirEntry) → List RipgrepMatch → Nat → Nat →
    Except SearchErr (List RipgrepMatch × Nat × Nat)
  | [], res, fi, co => Except.ok (res, fi, co)
  | none :: rest, res, fi, co => searchLoop env ci bc ac maxr pattern glob rest res fi co
  | some e :: rest, res, fi, co =>
    if e.is_file then
      match globSkip glob e.file_name with
      | none => Except.error SearchErr.panic
      | some true => searchLoop env ci bc ac maxr pattern glob rest res fi co
      | some false =>
        if env.regexBuild ci pattern then
          let sink := runSink
            { path := e.path, results := res, max_results := maxr, stopped := false }
            (env.scan ci bc ac pattern e.content)
          if sink.stopped then Except.ok (sink.results, fi + 1, co + 1)
          else searchLoop env ci bc ac maxr pattern glob rest sink.results (fi + 1) (co + 1)
        else Except.error SearchErr.regexError
    else searchLoop env ci bc ac maxr pattern glob rest res fi co

/-- The walker configuration `RipgrepSearcher::search` builds from the
per-call options. -/
def walkConfigOf (opts : RipgrepOptions) : WalkConfig :=
  { path := opts.path
    hidden := !(opts.include_hidden.getD false)
    git_ignore := true
    max_depth := opts.max_depth
    custom_rgignore := opts.glob.isSome }

/-- `RipgrepSearcher::search`: clear the accumulators, build and run the
walker loop, then assemble the report; `truncated` is
`max_results.map_or(false, |max| results.len() >= max)`.  The returned
handle carries the post-call shared state. -/
def RipgrepSearcher.search (env : Env) (self : RipgrepSearcher)
    (opts : RipgrepOptions) :
    Except SearchErr (RipgrepSearcher × RipgrepResult) :=
  let cleared : RipgrepSearcher := { self with results := [], files_searched := 0 }
  match searchLoop env cleared.case_insensitive cleared.before_context
      cleared.after_context cleared.max_results opts.pattern opts.glob
      (env.walk (walkConfigOf opts)) [] 0 0 with
  | Except.error e => Except.error e
  | Except.ok (results, files, _compiles) =>
    Except.ok
      ({ cleared with results := results, files_searched := files },
       { «matches» := results
         files_searched := files
         total_matches := results.length
         truncated := match cleared.max_results with
           | some max => decide (max ≤ results.length)
           | none => false })

/-- `pub async fn search` — the stateless one-shot entry point:
construct a handle from the options, then run its `search` with the same
options; only the report is returned. -/
def search (env : Env) (opts : RipgrepOptions) : Except SearchErr RipgrepResult :=
  (RipgrepSearcher.search env (RipgrepSearcher.new opts) opts).map (fun p => p.2)

/-- Adjacent deduplication, modelling `Vec::dedup`. -/
def dedupAdj : List String → List String
  | [] => []
  | [a] => [a]
  | a :: b :: rest => if a = b then dedupAdj (b :: rest) else a :: dedupAdj (b :: rest)

/-- `pub async fn search_files` — run the one-shot search, project each
match to its path, then `sort` and `dedup`. -/
def search_files (env : Env) (opts : RipgrepOptions) :
    Except SearchErr (List String) :=
  (search env opts).map (fun r =>
    dedupAdj (List.mergeSort (r.«matches».map (fun m => m.path)) (fun a b => a ≤ b)))

/-! ## Concrete fixtures used by witnesses and counterexamples -/

/-- A baseline request: pattern `"l"` over root `"."`, everything else
defaulted. -/
def optsBase : RipgrepOptions :=
  { pattern := "l", path := ".", case_insensitive := none, glob := none,
    max_depth := none, max_results := none, before_context := none,
    after_context := none, files_with_matches := none, include_hidden := none }

/-- One matched-line event: line 1 of `"hello"`, submatch `[2, 3)`. -/
def li1 : LineInfo :=
  { line_number := 1, text := "hello", submatches := [{ start := 2, stop := 3 }] }

/-- A regular file `a.txt` with content `"hello"`. -/
def entryA : DirEntry :=
  { is_file := true, file_name := some "a.txt", path := "a.txt", content := "hello" }

/-- A regular file `b.txt` with content `"hello"`. -/
def entryB : DirEntry :=
  { is_file := true, file_name := some "b.txt", path := "b.txt", content := "hello" }

/-- The match record the sink builds for `li1` in `a.txt`. -/
def mA : RipgrepMatch :=
  { path := "a.txt", line := 1, column := 2, text := "hello",
    submatches := [{ start := 2, stop := 3 }] }

/-- The match record the sink builds for `li1` in `b.txt`. -/
def mB : RipgrepMatch :=
  { path := "b.txt", line := 1, column := 2, text := "hello",
    submatches := [{ start := 2, stop := 3 }] }

/-- A tree with the single file `a.txt`; every pattern compiles; scanning
`"hello"` yields exactly the event `li1`. -/
def envA : Env :=
  { walk := fun _ => [some entryA],
    regexBuild := fun _ _ => true,
    scan := fun _ _ _ _ content => if content = "hello" then [li1] else [] }

/-- A tree with the two files `a.txt` and `b.txt`, one match each. -/
def envTwo : Env :=
  { walk := fun _ => [some entryA, some entryB],
    regexBuild := fun _ _ => true,
    scan := fun _ _ _ _ content => if content = "hello" then [li1] else [] }

/-- An empty tree whose pattern does not compile. -/
def envBad : Env :=
  { walk := fun _ => [], regexBuild := fun _ _ => false,
    scan := fun _ _ _ _ _ => [] }

/-- A one-file tree whose pattern does not compile. -/
def envBad1 : Env :=
  { walk := fun _ => [some entryA], regexBuild := fun _ _ => false,
    scan := fun _ _ _ _ _ => [] }

/-- A one-file tree with a compiling pattern, used with invalid globs. -/
def envGlob : Env :=
  { walk := fun _ => [some entryA], regexBuild := fun _ _ => true,
    scan := fun _ _ _ _ content => if content = "hello" then [li1] else [] }

/-- Walker items that the loop skips without scanning: `Err` entries and
entries that are not regular files. -/
def nonFileItem : Option DirEntry → Bool
  | none => true
  | some d => !d.is_file

/-! ## Internal lemmas about the sink and the walk loop -/

/-- Behaviour of one file's scan through the sink, from a fresh (not yet
stopped) sink whose accumulator holds `k ≤ m` matches: the accumulator ends
at `min m (k + number of events)`, and the sink ends stopped exactly when
the events outnumber the remaining budget `m - k` — that is, when some
event arrived after the cap was already reached. -/
theorem runSink_spec (m : Nat) (evs : List LineInfo) :
    ∀ (sink : MatchSink),
    sink.max_results = some m → sink.stopped = false → sink.results.length ≤ m →
    (runSink sink evs).results.length = min m (sink.results.length + evs.length) ∧
    ((runSink sink evs).stopped = true ↔ m - sink.results.length < evs.length) := by
  induction evs with
  | nil =>
    intro sink h1 h2 h3
    simp only [runSink, List.length_nil]
    constructor
    · omega
    · simp only [h2]
      constructor
      · intro h
        cases h
      · intro h
        omega
  | cons mat rest ih =>
    intro sink h1 h2 h3
    by_cases hm : m ≤ sink.results.length
    · have hcond : MatchSink.matched sink mat = ({ sink with stopped := true }, false) := by
        simp [MatchSink.matched, h1, hm]
      simp only [runSink, hcond, Bool.false_eq_true, if_false, List.length_cons]
      constructor
      · omega
      · constructor
        · intro _
          omega
        · intro _
          trivial
    · have hcond : MatchSink.matched sink mat =
          ({ sink with results := sink.results ++ [mkEntry sink.path mat] }, true) := by
        simp [MatchSink.matched, h1, hm, h2]
      simp only [runSink, hcond, if_true, List.length_cons]
      have hstep := ih { sink with results := sink.results ++ [mkEntry sink.path mat] }
        (by simpa using h1) (by simpa using h2) (by simp; omega)
      simp only [List.length_append, List.length_singleton] at hstep
      constructor
      · rw [hstep.1]
        omega
      · rw [hstep.2]
        omega

/-- The walk loop never accumulates more than a configured cap `m`:
whenever it returns a report, the match list is bounded by `m`, provided
the accumulator it started from was. -/
theorem searchLoop_cap (env : Env) (ci : Bool) (bc ac : Nat) (m : Nat)
    (pattern : String) (glob : Option String) :
    ∀ (entries : List (Option DirEntry)) (res : List RipgrepMatch) (fi co : Nat)
      (out : List RipgrepMatch × Nat × Nat),
    res.length ≤ m →
    searchLoop env ci bc ac (some m) pattern glob entries res fi co = Except.ok out →
    out.1.length ≤ m := by
  intro entries
  induction entries with
  | nil =>
    intro res fi co out hres h
    simp only [searchLoop, Except.ok.injEq] at h
    rw [← h]
    exact hres
  | cons x rest ih =>
    intro res fi co out hres h
    cases x with
    | none =>
      simp only [searchLoop] at h
      exact ih res fi co out hres h
    | some e =>
      simp only [searchLoop] at h
      cases hf : e.is_file with
      | false =>
        simp only [hf, Bool.false_eq_true, if_false] at h
        exact ih res fi co out hres h
      | true =>
        simp only [hf, if_true] at h
        cases hgs : globSkip glob e.file_name with
        | none =>
          simp only [hgs] at h
          cases h
        | some b =>
          cases b with
          | true =>
            simp only [hgs] at h
            exact ih res fi co out hres h
          | false =>
            simp only [hgs] at h
            cases hrb : env.regexBuild ci pattern with
            | false =>
              simp only [hrb, Bool.false_eq_true, if_false] at h
              cases h
            | true =>
              simp only [hrb, if_true] at h
              have hsink := runSink_spec m (env.scan ci bc ac pattern e.content)
                { path := e.path, results := res, max_results := some m, stopped := false }
                rfl rfl hres
              cases hst : (runSink
                  { path := e.path, results := res, max_results := some m, stopped := false }
                  (env.scan ci bc ac pattern e.content)).stopped with
              | true =>
                simp only [hst, if_true, Except.ok.injEq] at h
                rw [← h]
                simp only []
                rw [hsink.1]
                omega
              | false =>
                simp only [hst, Bool.false_eq_true, if_false] at h
                refine ih _ _ _ _ ?_ h
                rw [hsink.1]
                omega

/-- Walker items that are `Err` entries or non-files are skipped without
touching the accumulators or ending the loop. -/
theorem searchLoop_skip (env : Env) (ci : Bool) (bc ac : Nat) (maxr : Option Nat)
    (pattern : String) (glob : Option String) :
    ∀ (es l : List (Option DirEntry)) (res : List RipgrepMatch) (fi co : Nat),
    (∀ x ∈ es, nonFileItem x = true) →
    searchLoop env ci bc ac maxr pattern glob (es ++ l) res fi co =
    searchLoop env ci bc ac maxr pattern glob l res fi co := by
  intro es
  induction es with
  | nil =>
    intro l res fi co hs
    rfl
  | cons x rest ih =>
    intro l res fi co hs
    cases x with
    | none =>
      simp only [List.cons_append, searchLoop]
      exact ih l res fi co (fun y hy => hs y (List.mem_cons_of_mem _ hy))
    | some d =>
      have hd : d.is_file = false := by
        have := hs (some d) (List.mem_cons_self _ _)
        simpa [nonFileItem] using this
      simp only [List.cons_append, searchLoop, hd, Bool.false_eq_true, if_false]
      exact ih l res fi co (fun y hy => hs y (List.mem_cons_of_mem _ hy))

/-- Each scanned (hence counted) file corresponds to exactly one
`self.matcher.build` call: on success the compile counter and the file
counter advance in lock step. -/
theorem searchLoop_compiles_aux (env : Env) (ci : Bool) (bc ac : Nat)
    (maxr : Option Nat) (pattern : String) (glob : Option String) :
    ∀ (entries : List (Option DirEntry)) (res : List RipgrepMatch) (fi co : Nat)
      (r : List RipgrepMatch) (f c : Nat),
    searchLoop env ci bc ac maxr pattern glob entries res fi co = Except.ok (r, f, c) →
    c + fi = f + co := by
  intro entries
  induction entries with
  | nil =>
    intro res fi co r f c h
    simp only [searchLoop, Except.ok.injEq, Prod.mk.injEq] at h
    omega
  | cons x rest ih =>
    intro res fi co r f c h
    cases x with
    | none =>
      simp only [searchLoop] at h
      exact ih res fi co r f c h
    | some e =>
      simp only [searchLoop] at h
      cases hf : e.is_file with
      | false =>
        simp only [hf, Bool.false_eq_true, if_false] at h
        exact ih res fi co r f c h
      | true =>
        simp only [hf, if_true] at h
        cases hgs : globSkip glob e.file_name with
        | none =>
          simp only [hgs] at h
          cases h
        | some b =>
          cases b with
          | true =>
            simp only [hgs] at h
            exact ih res fi co r f c h
          | false =>
            simp only [hgs] at h
            cases hrb : env.regexBuild ci pattern with
            | false =>
              simp only [hrb, Bool.false_eq_true, if_false] at h
              cases h
            | true =>
              simp only [hrb, if_true] at h
              cases hst : (runSink
                  { path := e.path, results := res, max_results := maxr, stopped := false }
                  (env.scan ci bc ac pattern e.content)).stopped with
              | true =>
                simp only [hst, if_true, Except.ok.injEq, Prod.mk.injEq] at h
                omega
              | false =>
                simp only [hst, Bool.false_eq_true, if_false] at h
                have := ih _ _ _ r f c h
                omega

/-- `Vec::dedup` does not change membership. -/
theorem dedupAdj_mem : ∀ (l : List String) (a : String), a ∈ dedupAdj l ↔ a ∈ l := by
  intro l
  induction l with
  | nil =>
    intro a
    simp [dedupAdj]
  | cons b t ih =>
    intro a
    cases t with
    | nil => simp [dedupAdj]
    | cons c r =>
      by_cases hbc : b = c
      · subst hbc
        rw [dedupAdj, if_pos rfl]
        rw [ih a]
        constructor
        · intro h
          exact List.mem_cons_of_mem _ h
        · intro h
          rcases List.mem_cons.mp h with h1 | h1
          · rw [h1]
            exact List.mem_cons_self _ _
          · exact h1
      · rw [dedupAdj, if_neg hbc]
        rw [List.mem_cons, List.mem_cons, ih a]

/-- On a `≤`-sorted list, adjacent deduplication yields a strictly
increasing (hence duplicate-free) list. -/
theorem dedupAdj_sorted : ∀ (l : List String),
    l.Pairwise (fun a b => a ≤ b) → (dedupAdj l).Pairwise (fun a b => a < b) := by
  intro l
  induction l with
  | nil =>
    intro _
    simp [dedupAdj]
  | cons b t ih =>
    intro hs
    rcases List.pairwise_cons.mp hs with ⟨hb, ht⟩
    cases t with
    | nil => simp [dedupAdj]
    | cons c r =>
      by_cases hbc : b = c
      · rw [dedupAdj, if_pos hbc]
        exact ih ht
      · rw [dedupAdj, if_neg hbc]
        refine List.pairwise_cons.mpr ⟨?_, ih ht⟩
        intro x hx
        have hxm : x ∈ c :: r := (dedupAdj_mem (c :: r) x).mp hx
        have hbc2 : b ≤ c := hb c (List.mem_cons_self _ _)
        rcases List.mem_cons.mp hxm with heq | hxr
        · exact lt_of_le_of_ne (hb x hxm) (heq ▸ hbc)
        · have hcx : c ≤ x := (List.pairwise_cons.mp ht).1 x hxr
          exact lt_of_le_of_ne (le_trans hbc2 hcx)
            (fun he => hbc (le_antisymm hbc2 (he ▸ hcx)))

/-- The `sort`-then-`dedup` pipeline of `search_files` yields a strictly
sorted list with the same members as the input path list. -/
theorem sortDedup_spec (paths : List String) :
    (dedupAdj (List.mergeSort paths (fun a b => a ≤ b))).Pairwise (fun a b => a < b) ∧
    ∀ p, p ∈ dedupAdj (List.mergeSort paths (fun a b => a ≤ b)) ↔ p ∈ paths := by
  have hsorted : (List.mergeSort paths (fun a b => a ≤ b)).Pairwise (fun a b => a ≤ b) := by
    have := @List.sorted_mergeSort String (fun a b : String => decide (a ≤ b))
      (fun a b c hab hbc => by
        simp only [decide_eq_true_eq] at *
        exact le_trans hab hbc)
      (fun a b => by
        simpa [decide_eq_true_eq, Bool.or_eq_true] using le_total a b)
      paths
    refine this.imp ?_
    intro a b h
    simpa using h
  refine ⟨dedupAdj_sorted _ hsorted, ?_⟩
  intro p
  rw [dedupAdj_mem]
  simp

/-! ## Internal lemmas about the glob translation and the regex fragment -/

theorem parseRegexGo_star (a : RAtom) (l : List Char) :
    parseRegexGo (some a) ('*' :: l) =
    (parseRegexGo none l).map (fun ts => RTok.star a :: ts) := by
  rw [parseRegexGo.eq_def]
  rfl

theorem parseRegexGo_plus (a : RAtom) (l : List Char) :
    parseRegexGo (some a) ('+' :: l) =
    (parseRegexGo none l).map (fun ts => RTok.plus a :: ts) := by
  rw [parseRegexGo.eq_def]
  rfl

theorem parseRegexGo_dot (pend : Option RAtom) (l : List Char) :
    parseRegexGo pend ('.' :: l) =
    (parseRegexGo (some RAtom.dot) l).map (fun ts => pushPend pend ts) := by
  rw [parseRegexGo.eq_def]
  rfl

theorem parseRegexGo_bs (pend : Option RAtom) (d : Char) (l : List Char)
    (hd : escLiteral d = true) :
    parseRegexGo pend ('\\' :: d :: l) =
    (parseRegexGo (some (RAtom.lit d)) l).map (fun ts => pushPend pend ts) := by
  rw [parseRegexGo.eq_def]
  simp [hd]

theorem parseRegexGo_lit (pend : Option RAtom) (c : Char) (l : List Char)
    (h1 : c ≠ '.') (h2 : c ≠ '*') (h3 : c ≠ '+') (h4 : c ≠ '\\')
    (hm : isMeta c = false) :
    parseRegexGo pend (c :: l) =
    (parseRegexGo (some (RAtom.lit c)) l).map (fun ts => pushPend pend ts) := by
  rw [parseRegexGo.eq_def]
  simp [h1, h2, h3, h4, hm]

theorem parseRegexGo_plus_none (l : List Char) :
    parseRegexGo none ('+' :: l) = none := by
  rw [parseRegexGo.eq_def]
  rfl

theorem parseRegexGo_meta (pend : Option RAtom) (c : Char) (l : List Char)
    (h2 : c ≠ '*') (h3 : c ≠ '+') (h4 : c ≠ '\\') (hm : isMeta c = true) :
    parseRegexGo pend (c :: l) = none := by
  rw [parseRegexGo.eq_def]
  simp [h2, h3, h4, hm]

theorem starSuffixes_dot : ∀ (s : List Char), '\n' ∉ s →
    starSuffixes RAtom.dot s = s.tails := by
  intro s
  induction s with
  | nil =>
    intro _
    simp [starSuffixes]
  | cons c cs ih =>
    intro h
    have hc : ¬(c = '\n') := by
      intro he
      subst he
      exact h (List.mem_cons_self _ _)
    have hcs : '\n' ∉ cs := fun hx => h (List.mem_cons_of_mem _ hx)
    simp [starSuffixes, atomMatch, hc, ih hcs, List.tails_cons]

theorem parseRegexGo_globTranslate : ∀ (p : List Char), plainGlob p = true →
    ∀ pend, parseRegexGo pend (globTranslate p) = some (pushPend pend (p.map tokChar)) := by
  intro p
  induction p with
  | nil =>
    intro _ pend
    simp [globTranslate, parseRegexGo]
  | cons c ps ih =>
    intro hp pend
    have hps : plainGlob ps = true := by
      simp only [plainGlob, List.all_cons, Bool.and_eq_true] at hp
      exact hp.2
    have hc : badGlobChar c = false := by
      simp only [plainGlob, List.all_cons, Bool.and_eq_true] at hp
      simpa using hp.1
    obtain ⟨hb1, hb2, hb3, hb4, hb5, hb6, hb7, hb8, hb9, hb10, hb11⟩ :
        (c ≠ '\\' ∧ c ≠ '+' ∧ c ≠ '(' ∧ c ≠ ')' ∧ c ≠ '[' ∧ c ≠ ']' ∧
        c ≠ '\x7b' ∧ c ≠ '\x7d' ∧ c ≠ '|' ∧ c ≠ '^' ∧ c ≠ '$') := by
      simpa [badGlobChar, and_assoc] using hc
    have htr : globTranslate (c :: ps) = globChar c ++ globTranslate ps := by
      simp [globTranslate]
    rw [htr]
    by_cases h1 : c = '.'
    · subst h1
      rw [show globChar '.' = ['\\', '.'] from rfl]
      simp only [List.cons_append, List.nil_append]
      rw [parseRegexGo_bs pend '.' (globTranslate ps) (by decide),
        ih hps (some (RAtom.lit '.'))]
      simp [pushPend, tokChar]
    · by_cases h2 : c = '*'
      · subst h2
        rw [show globChar '*' = ['.', '*'] from rfl]
        simp only [List.cons_append, List.nil_append]
        rw [parseRegexGo_dot, parseRegexGo_star, ih hps none]
        simp [pushPend, tokChar]
      · by_cases h3 : c = '?'
        · subst h3
          rw [show globChar '?' = ['.'] from rfl]
          simp only [List.cons_append, List.nil_append]
          rw [parseRegexGo_dot, ih hps (some RAtom.dot)]
          simp [pushPend, tokChar]
        · have hgc : globChar c = [c] := by
            simp [globChar, h1, h2, h3]
          have hm : isMeta c = false := by
            simp [isMeta, h2, h3, hb2, hb3, hb4, hb5, hb6, hb7, hb8, hb9, hb10, hb11]
          rw [hgc]
          simp only [List.cons_append, List.nil_append]
          rw [parseRegexGo_lit pend c _ h1 h2 hb2 hb1 hm, ih hps (some (RAtom.lit c))]
          simp [pushPend, tokChar, h2, h3]

/-- Translating a glob containing a `[` not shadowed by an escape lands
outside the parsed fragment: the `[` reaches the parser bare (the
translation's own backslashes all escape a following `.`), so parsing
fails for every pending atom. -/
theorem parse_unclosed_class : ∀ (l : List Char), '[' ∈ l → '\\' ∉ l →
    ∀ pend, parseRegexGo pend (globTranslate l) = none := by
  intro l
  induction l with
  | nil =>
    intro h
    cases h
  | cons c cs ih =>
    intro hmem hesc pend
    have hesc1 : ¬(c = '\\') := by
      intro he
      subst he
      exact hesc (List.mem_cons_self _ _)
    have hesc2 : '\\' ∉ cs := fun hx => hesc (List.mem_cons_of_mem _ hx)
    have htr : globTranslate (c :: cs) = globChar c ++ globTranslate cs := by
      simp [globTranslate]
    rw [htr]
    by_cases hcb : c = '['
    · subst hcb
      rw [show globChar '[' = ['['] from rfl]
      simp only [List.cons_append, List.nil_append]
      exact parseRegexGo_meta pend '[' _ (by decide) (by decide) (by decide) (by decide)
    · have hmem2 : '[' ∈ cs := by
        rcases List.mem_cons.mp hmem with h | h
        · exact absurd h.symm hcb
        · exact h
      by_cases h1 : c = '.'
      · subst h1
        rw [show globChar '.' = ['\\', '.'] from rfl]
        simp only [List.cons_append, List.nil_append]
        rw [parseRegexGo_bs pend '.' (globTranslate cs) (by decide),
          ih hmem2 hesc2 (some (RAtom.lit '.'))]
        rfl
      · by_cases h2 : c = '*'
        · subst h2
          rw [show globChar '*' = ['.', '*'] from rfl]
          simp only [List.cons_append, List.nil_append]
          rw [parseRegexGo_dot, parseRegexGo_star, ih hmem2 hesc2 none]
          rfl
        · by_cases h3 : c = '?'
          · subst h3
            rw [show globChar '?' = ['.'] from rfl]
            simp only [List.cons_append, List.nil_append]
            rw [parseRegexGo_dot, ih hmem2 hesc2 (some RAtom.dot)]
            rfl
          · have hgc : globChar c = [c] := by
              simp [globChar, h1, h2, h3]
            rw [hgc]
            simp only [List.cons_append, List.nil_append]
            by_cases h4 : c = '+'
            · subst h4
              cases pend with
              | none => exact parseRegexGo_plus_none _
              | some a =>
                rw [parseRegexGo_plus a, ih hmem2 hesc2 none]
                rfl
            · by_cases hm : isMeta c = true
              · exact parseRegexGo_meta pend c _ h2 h4 hesc1 hm
              · have hm2 : isMeta c = false := by
                  cases hval : isMeta c
                  · rfl
                  · exact absurd hval hm
                rw [parseRegexGo_lit pend c _ h1 h2 h4 hesc1 hm2,
                  ih hmem2 hesc2 (some (RAtom.lit c))]
                rfl

theorem any_congr_mem {α : Type} (l : List α) (f g : α → Bool)
    (h : ∀ x ∈ l, f x = g x) : l.any f = l.any g := by
  induction l with
  | nil => rfl
  | cons a t ih =>
    simp only [List.any_cons]
    rw [h a (List.mem_cons_self _ _), ih (fun x hx => h x (List.mem_cons_of_mem _ hx))]

theorem rmatch_tokChar : ∀ (p : List Char) (s : List Char), '\n' ∉ s →
    rmatch (p.map tokChar) s = specGlob p s := by
  intro p
  induction p with
  | nil =>
    intro s _
    simp [rmatch, specGlob]
  | cons c ps ih =>
    intro s hs
    by_cases h1 : c = '*'
    · subst h1
      simp only [List.map_cons, tokChar, if_pos rfl]
      simp only [rmatch]
      rw [starSuffixes_dot s hs]
      have hcong : ∀ x ∈ s.tails, rmatch (ps.map tokChar) x = specGlob ps x := by
        intro x hx
        have hsuf : x <:+ s := (List.mem_tails x s).mp hx
        exact ih x (fun hmem => hs (hsuf.subset hmem))
      rw [any_congr_mem s.tails (fun s2 => rmatch (ps.map tokChar) s2)
        (fun s2 => specGlob ps s2) hcong]
      simp [specGlob]
    · by_cases h2 : c = '?'
      · subst h2
        cases s with
        | nil => simp [rmatch, specGlob, tokChar]
        | cons c2 cs =>
          have hc2 : ¬(c2 = '\n') := by
            intro he
            subst he
            exact hs (List.mem_cons_self _ _)
          have hcs : '\n' ∉ cs := fun hx => hs (List.mem_cons_of_mem _ hx)
          simp [rmatch, specGlob, tokChar, atomMatch, hc2, ih cs hcs]
      · cases s with
        | nil => simp [rmatch, specGlob, tokChar, h1, h2]
        | cons c2 cs =>
          have hcs : '\n' ∉ cs := fun hx => hs (List.mem_cons_of_mem _ hx)
          simp [rmatch, specGlob, tokChar, atomMatch, h1, h2, ih cs hcs]

/-! ## Request and result fixtures for the claims -/

/-- Request with a cap of 1. -/
def optsCap1 : RipgrepOptions := { optsBase with max_results := some 1 }

/-- Request with a cap of 5. -/
def optsCap5 : RipgrepOptions := { optsBase with max_results := some 5 }

/-- Request asking for files-with-matches mode. -/
def optsFwm : RipgrepOptions := { optsBase with files_with_matches := some true }

/-- Request with the invalid glob `[` (an unclosed character class). -/
def optsGlobBr : RipgrepOptions := { optsBase with glob := some "[" }

/-- Request with the invalid glob `[a` (an unclosed character class). -/
def optsGlobBrA : RipgrepOptions := { optsBase with glob := some "[a" }

theorem search_eq (env : Env) (opts : RipgrepOptions) :
    search env opts =
      match searchLoop env (opts.case_insensitive.getD false) (opts.before_context.getD 0)
          (opts.after_context.getD 0) opts.max_results opts.pattern opts.glob
          (env.walk (walkConfigOf opts)) [] 0 0 with
      | Except.error e => Except.error e
      | Except.ok (results, files, _compiles) =>
        Except.ok
          { «matches» := results
            files_searched := files
            total_matches := results.length
            truncated := match opts.max_results with
              | some max => decide (max ≤ results.length)
              | none => false } := by
  simp only [search, RipgrepSearcher.search, RipgrepSearcher.new]
  rcases hsl : searchLoop env (opts.case_insensitive.getD false) (opts.before_context.getD 0)
      (opts.after_context.getD 0) opts.max_results opts.pattern opts.glob
      (env.walk (walkConfigOf opts)) [] 0 0 with e | ⟨res, f, c⟩
  · rfl
  · rfl

/-! ## Claim C8 -/

/-- C8 counterexample: `glob_match` is not the anchored glob semantics on
every pattern and filename.  First, the regex metacharacter `+` passes
through the translation unescaped, so `glob_match "a+" "aaa"` is `true`
although under glob semantics the pattern `a+` only matches the literal
filename `a+`.  Second, the engine's `.` does not match a newline, so the
translated `*` does not either: `glob_match "*" "a\nb"` is `false`
although `*` matches any run of characters under glob semantics. -/
theorem glob_plus_leak_cex :
    (glob_match "a+" "aaa" = some true ∧ specGlob "a+".data "aaa".data = false) ∧
    (glob_match "*" "a\nb" = some false ∧ specGlob "*".data "a\nb".data = true) := by
  decide

/-- C8 (amended): on glob patterns free of the unescaped regex
metacharacters (`\`, `+`, brackets, braces, parentheses, `|`, `^`, `$`) —
in particular on all four examples of the claim — and on filenames that
contain no newline (regex `.` excludes it), `glob_match` returns exactly
the anchored full-string glob semantics in which `*` matches any run of
characters, `?` matches exactly one character and `.` is literal. -/
theorem glob_match_plain_spec (p s : String) (hp : plainGlob p.data = true)
    (hn : '\n' ∉ s.data) :
    glob_match p s = some (specGlob p.data s.data) := by
  unfold glob_match parseRegex
  rw [parseRegexGo_globTranslate p.data hp none]
  simp [pushPend, rmatch_tokChar p.data s.data hn]

/-- C8 witness: the restricted semantics theorem applied to the claim's
first example. -/
theorem glob_match_plain_spec_wit :
    plainGlob "*.txt".data = true ∧ '\n' ∉ "a.txt".data ∧
    glob_match "*.txt" "a.txt" = some (specGlob "*.txt".data "a.txt".data) :=
  ⟨by decide, by decide, glob_match_plain_spec "*.txt" "a.txt" (by decide) (by decide)⟩

/-! ## Claim C9 -/

/-- C9 counterexample: with the invalid glob `[` — an unclosed character
class, which `Regex::new` rejects — over a one-file tree, the search call
ends in the `.unwrap()` panic inside `glob_match`, not in an error value
returned to the caller (and not in the `regexError` that models the call's
only error return path). -/
theorem invalid_glob_panic_cex :
    search envGlob optsGlobBr = Except.error SearchErr.panic ∧
    SearchErr.panic ≠ SearchErr.regexError := by
  constructor
  · rfl
  · decide

/-- C9 (amended): an invalid glob is surfaced as a panic, not as an error
result: for every glob with an unclosed character class — a `[` with no
`]` and no backslash, a family on which `Regex::new` certainly errors —
the `.unwrap()` inside `glob_match` aborts the call as soon as the walk
reaches a file with a file name, instead of returning an error value (the
only error value `search` can return is the pattern build error). -/
theorem invalid_glob_panic (env : Env) (opts : RipgrepOptions) (g : String)
    (e : DirEntry) (rest : List (Option DirEntry)) (name : String)
    (hg : opts.glob = some g)
    (hopen : '[' ∈ g.data) (hclose : ']' ∉ g.data) (hesc : '\\' ∉ g.data)
    (hw : env.walk (walkConfigOf opts) = some e :: rest)
    (hf : e.is_file = true) (hn : e.file_name = some name) :
    search env opts = Except.error SearchErr.panic := by
  rw [search_eq, hw, hg]
  have hskip : globSkip (some g) (some name) = none := by
    simp [globSkip, glob_match, parseRegex, parse_unclosed_class g.data hopen hesc none]
  simp only [searchLoop, hf, if_true, hn, hskip]

/-- C9 witness: the amended theorem applied to the unclosed-class glob
`[a` over the concrete one-file tree. -/
theorem invalid_glob_panic_wit :
    '[' ∈ "[a".data ∧ ']' ∉ "[a".data ∧ '\\' ∉ "[a".data ∧
    search envGlob optsGlobBrA = Except.error SearchErr.panic :=
  ⟨by decide, by decide, by decide,
   invalid_glob_panic envGlob optsGlobBrA "[a" entryA [] "a.txt" rfl (by decide)
     (by decide) (by decide) rfl rfl rfl⟩

/-! ## Claim C2 -/

/-- C2 counterexample: two files with one match each and a cap of 1.  The
cap is reached at the end of the first file, but the walk does not stop
there: the second file is still enumerated, scanned and counted, so the
report says `files_searched = 2` where the claim requires 1. -/
theorem files_counted_after_cap_cex :
    search envTwo optsCap1 =
      Except.ok { «matches» := [mA], files_searched := 2, total_matches := 1,
                  truncated := true } ∧
    (2 : Nat) ≠ 1 := by
  constructor
  · rfl
  · decide

/-- C2 (amended): a file's scan leaves the sink stopped — which is the only
condition under which the orchestrator halts the walk — exactly when the
file's match events outnumber the remaining budget `cap - accumulated`,
i.e. when some event arrives after the cap is already reached.  A file
whose events only just exhaust the budget, or a later file with no events,
leaves the sink unstopped, so the walk continues past it and it is scanned
and counted. -/
theorem cap_stop_boundary (m : Nat) (evs : List LineInfo) (sink : MatchSink)
    (h1 : sink.max_results = some m) (h2 : sink.stopped = false)
    (h3 : sink.results.length ≤ m) :
    (runSink sink evs).results.length = min m (sink.results.length + evs.length) ∧
    ((runSink sink evs).stopped = true ↔ m - sink.results.length < evs.length) :=
  runSink_spec m evs sink h1 h2 h3

/-- C2 witness: a fresh sink with cap 2 fed three events ends with exactly
two matches and stopped. -/
theorem cap_stop_boundary_wit :
    (runSink { path := "a.txt", results := [], max_results := some 2, stopped := false }
        [li1, li1, li1]).results.length = min 2 (List.length ([] : List RipgrepMatch) + 3) ∧
    ((runSink { path := "a.txt", results := [], max_results := some 2, stopped := false }
        [li1, li1, li1]).stopped = true ↔
      2 - List.length ([] : List RipgrepMatch) < 3) :=
  cap_stop_boundary 2 [li1, li1, li1]
    { path := "a.txt", results := [], max_results := some 2, stopped := false }
    rfl rfl (by decide)

/-! ## Claim C5 -/

/-- C5 counterexample: over a two-file tree the pattern is compiled twice
(the compile counter of the walk loop ends at 2, one per scanned file),
not exactly once per search invocation. -/
theorem compile_twice_cex :
    searchLoop envTwo false 0 0 none "l" none [some entryA, some entryB] [] 0 0 =
      Except.ok ([mA, mB], 2, 2) ∧
    (2 : Nat) ≠ 1 := by
  constructor
  · rfl
  · decide

/-- C5 (amended): `self.matcher.build(&opts.pattern)` runs once per scanned
file, inside the walk loop: on success the number of compilations equals
`files_searched`, not 1. -/
theorem compile_per_scanned_file (env : Env) (ci : Bool) (bc ac : Nat)
    (maxr : Option Nat) (pattern : String) (glob : Option String)
    (entries : List (Option DirEntry)) (r : List RipgrepMatch) (f c : Nat)
    (h : searchLoop env ci bc ac maxr pattern glob entries [] 0 0 = Except.ok (r, f, c)) :
    c = f := by
  have := searchLoop_compiles_aux env ci bc ac maxr pattern glob entries [] 0 0 r f c h
  omega

/-- C5 witness: the amended theorem applied to the two-file tree. -/
theorem compile_per_scanned_file_wit :
    searchLoop envTwo false 0 0 none "l" none [some entryA, some entryB] [] 0 0 =
      Except.ok ([mA, mB], 2, 2) ∧ (2 : Nat) = 2 :=
  ⟨rfl, compile_per_scanned_file envTwo false 0 0 none "l" none
    [some entryA, some entryB] [mA, mB] 2 2 rfl⟩

/-! ## Claim C1 -/

/-- C1 counterexample: one file with exactly one (uncapped) match and
`max_results = 1`.  The capped search reports `truncated = true` although
the true uncapped match count is 1, which does not exceed 1 — `truncated`
is set when the count reaches the cap, not only when it exceeds it. -/
theorem truncated_without_excess_cex :
    search envA optsCap1 =
      Except.ok { «matches» := [mA], files_searched := 1, total_matches := 1,
                  truncated := true } ∧
    search envA optsBase =
      Except.ok { «matches» := [mA], files_searched := 1, total_matches := 1,
                  truncated := false } ∧
    ¬ (1 : Nat) > 1 := by
  refine ⟨rfl, rfl, ?_⟩
  decide

/-- C1 (amended): with `max_results = N` the report never holds more than
`N` matches, and `truncated = true` exactly when the number of returned
matches reached `N` (so also when the uncapped count is exactly `N`, not
only when it exceeds `N`). -/
theorem cap_length_and_truncated (env : Env) (opts : RipgrepOptions) (m : Nat)
    (r : RipgrepResult) (hm : opts.max_results = some m)
    (h : search env opts = Except.ok r) :
    r.«matches».length ≤ m ∧ (r.truncated = true ↔ m ≤ r.«matches».length) := by
  rw [search_eq, hm] at h
  rcases hsl : searchLoop env (opts.case_insensitive.getD false) (opts.before_context.getD 0)
      (opts.after_context.getD 0) (some m) opts.pattern opts.glob
      (env.walk (walkConfigOf opts)) [] 0 0 with e | ⟨res, f, c⟩
  · rw [hsl] at h
    cases h
  · rw [hsl] at h
    simp only [Except.ok.injEq] at h
    subst h
    have hcap := searchLoop_cap env (opts.case_insensitive.getD false)
      (opts.before_context.getD 0) (opts.after_context.getD 0) m opts.pattern opts.glob
      (env.walk (walkConfigOf opts)) [] 0 0 (res, f, c) (by simp) hsl
    refine ⟨hcap, ?_⟩
    simp

/-- C1 witness: the amended cap invariant applied to the one-file tree with
cap 5. -/
theorem cap_length_and_truncated_wit :
    ({ «matches» := [mA], files_searched := 1, total_matches := 1,
       truncated := false } : RipgrepResult).«matches».length ≤ 5 ∧
    (({ «matches» := [mA], files_searched := 1, total_matches := 1,
        truncated := false } : RipgrepResult).truncated = true ↔
      5 ≤ ({ «matches» := [mA], files_searched := 1, total_matches := 1,
             truncated := false } : RipgrepResult).«matches».length) :=
  cap_length_and_truncated envA optsCap5 5
    { «matches» := [mA], files_searched := 1, total_matches := 1, truncated := false }
    rfl rfl

/-! ## Claim C4 -/

/-- C4: the sink's two-step cap boundary.  (1) A call that still has room
appends and returns `true` — in particular the call whose append reaches
the cap still returns `true`.  (2) Any call arriving with the accumulator
at (or past) the cap returns `false` without appending, whether in the
same file or in a later one (each file's sink starts with
`stopped = false` but shares the accumulator).  (3) Consequently a
truncated report carries exactly `cap` matches. -/
theorem sink_two_step_boundary :
    (∀ (sink : MatchSink) (mat : LineInfo) (m : Nat),
      sink.max_results = some m → sink.stopped = false → sink.results.length < m →
      MatchSink.matched sink mat =
        ({ sink with results := sink.results ++ [mkEntry sink.path mat] }, true))
    ∧ (∀ (sink : MatchSink) (mat : LineInfo) (m : Nat),
      sink.max_results = some m → m ≤ sink.results.length →
      MatchSink.matched sink mat = ({ sink with stopped := true }, false))
    ∧ (∀ (env : Env) (opts : RipgrepOptions) (m : Nat) (r : RipgrepResult),
      opts.max_results = some m → search env opts = Except.ok r →
      r.truncated = true → r.«matches».length = m) := by
  refine ⟨?_, ?_, ?_⟩
  · intro sink mat m h1 h2 h3
    have hc : ¬ (m ≤ sink.results.length) := Nat.not_le.mpr h3
    simp [MatchSink.matched, h1, hc, h2]
  · intro sink mat m h1 h2
    simp [MatchSink.matched, h1, h2]
  · intro env opts m r hm h ht
    rw [search_eq, hm] at h
    rcases hsl : searchLoop env (opts.case_insensitive.getD false)
        (opts.before_context.getD 0) (opts.after_context.getD 0) (some m) opts.pattern
        opts.glob (env.walk (walkConfigOf opts)) [] 0 0 with e | ⟨res, f, c⟩
    · rw [hsl] at h
      cases h
    · rw [hsl] at h
      simp only [Except.ok.injEq] at h
      subst h
      have hcap := searchLoop_cap env (opts.case_insensitive.getD false)
        (opts.before_context.getD 0) (opts.after_context.getD 0) m opts.pattern opts.glob
        (env.walk (walkConfigOf opts)) [] 0 0 (res, f, c) (by simp) hsl
      have hcap2 : res.length ≤ m := hcap
      simp only [decide_eq_true_eq] at ht
      have ht2 : m ≤ res.length := ht
      show res.length = m
      omega

/-- C4 witness: the three parts at concrete inputs — a sink one short of a
cap of 1 appends and continues; a sink already at the cap refuses without
appending; the truncated capped report over the one-file tree holds exactly
one match. -/
theorem sink_two_step_boundary_wit :
    MatchSink.matched
        { path := "a.txt", results := [], max_results := some 1, stopped := false } li1 =
      ({ path := "a.txt", results := [mkEntry "a.txt" li1], max_results := some 1,
         stopped := false }, true) ∧
    MatchSink.matched
        { path := "b.txt", results := [mA], max_results := some 1, stopped := false } li1 =
      ({ path := "b.txt", results := [mA], max_results := some 1, stopped := true }, false) ∧
    ({ «matches» := [mA], files_searched := 1, total_matches := 1,
       truncated := true } : RipgrepResult).«matches».length = 1 :=
  ⟨sink_two_step_boundary.1
      { path := "a.txt", results := [], max_results := some 1, stopped := false } li1 1
      rfl rfl (by decide),
   sink_two_step_boundary.2.1
      { path := "b.txt", results := [mA], max_results := some 1, stopped := false } li1 1
      rfl (by decide),
   sink_two_step_boundary.2.2 envA optsCap1 1
      { «matches» := [mA], files_searched := 1, total_matches := 1, truncated := true }
      rfl rfl rfl⟩

/-! ## Claim C3 -/

/-- C3 counterexample: an empty tree with a pattern that does not compile.
The claim demands the call fail with the pattern error even here, but the
code only compiles the pattern inside the per-file loop, so the call
succeeds with an empty report. -/
theorem invalid_pattern_no_files_ok_cex :
    envBad.regexBuild (optsBase.case_insensitive.getD false) optsBase.pattern = false ∧
    search envBad optsBase =
      Except.ok { «matches» := [], files_searched := 0, total_matches := 0,
                  truncated := false } := by
  exact ⟨rfl, rfl⟩

/-- C3 (amended): the pattern is compiled lazily, once per scanned file.
An invalid pattern aborts the call with the regex error as soon as the walk
reaches the first regular file that passes the glob filter; but if the walk
yields no regular file at all, the call succeeds with an empty report
despite the invalid pattern. -/
theorem invalid_pattern_lazy_surfacing :
    (∀ (env : Env) (opts : RipgrepOptions) (es1 es2 : List (Option DirEntry)) (e : DirEntry),
      opts.glob = none →
      env.regexBuild (opts.case_insensitive.getD false) opts.pattern = false →
      env.walk (walkConfigOf opts) = es1 ++ some e :: es2 →
      (∀ x ∈ es1, nonFileItem x = true) →
      e.is_file = true →
      search env opts = Except.error SearchErr.regexError)
    ∧ (∀ (env : Env) (opts : RipgrepOptions),
      (∀ x ∈ env.walk (walkConfigOf opts), nonFileItem x = true) →
      ∃ r, search env opts = Except.ok r ∧ r.«matches» = [] ∧ r.files_searched = 0) := by
  constructor
  · intro env opts es1 es2 e hg hrb hw hskip hf
    rw [search_eq, hw, hg]
    rw [searchLoop_skip env (opts.case_insensitive.getD false) (opts.before_context.getD 0)
      (opts.after_context.getD 0) opts.max_results opts.pattern none es1
      (some e :: es2) [] 0 0 hskip]
    simp only [searchLoop, hf, if_true, globSkip, hrb, Bool.false_eq_true, if_false]
  · intro env opts hskip
    rw [search_eq]
    have happ : env.walk (walkConfigOf opts) = env.walk (walkConfigOf opts) ++ [] := by
      simp
    rw [happ, searchLoop_skip env (opts.case_insensitive.getD false)
      (opts.before_context.getD 0) (opts.after_context.getD 0) opts.max_results
      opts.pattern opts.glob (env.walk (walkConfigOf opts)) [] [] 0 0 hskip]
    exact ⟨_, rfl, rfl, rfl⟩

/-- C3 witness: the two parts at concrete inputs — a one-file tree with a
non-compiling pattern fails with the regex error, and the empty bad tree
yields the empty report. -/
theorem invalid_pattern_lazy_surfacing_wit :
    search envBad1 optsBase = Except.error SearchErr.regexError ∧
    ∃ r, search envBad optsBase = Except.ok r ∧ r.«matches» = [] ∧ r.files_searched = 0 :=
  ⟨invalid_pattern_lazy_surfacing.1 envBad1 optsBase [] [] entryA rfl rfl rfl
      (by intro x hx; cases hx) rfl,
   invalid_pattern_lazy_surfacing.2 envBad optsBase (by intro x hx; cases hx)⟩

/-! ## Claim C6 -/

/-- Report of the one-shot search over the one-file tree. -/
def resA : RipgrepResult :=
  { «matches» := [mA], files_searched := 1, total_matches := 1, truncated := false }

/-- C6 counterexample: with `files_with_matches` set, the search result
still carries the full per-line match detail — the flag is never read, and
nothing in the report is replaced by a path list. -/
theorem files_with_matches_full_detail_cex :
    search envA optsFwm = Except.ok resA ∧ resA.«matches».length = 1 := by
  exact ⟨rfl, rfl⟩

/-- C6 (amended): the `files_with_matches` flag is ignored — the search
result is the same whatever its value, with full match detail.  The
sorted, deduplicated path list is instead provided by the separate
`search_files` entry point, as a pure post-processing view over the same
match stream: it succeeds exactly when `search` does, is strictly sorted
(hence duplicate-free), and contains exactly the paths of the returned
matches. -/
theorem files_with_matches_ignored_and_view :
    (∀ (env : Env) (opts : RipgrepOptions) (b1 b2 : Option Bool),
      search env { opts with files_with_matches := b1 } =
      search env { opts with files_with_matches := b2 })
    ∧ (∀ (env : Env) (opts : RipgrepOptions) (r : RipgrepResult),
      search env opts = Except.ok r →
      ∃ l, search_files env opts = Except.ok l ∧
        l.Pairwise (fun a b => a < b) ∧
        ∀ p, p ∈ l ↔ p ∈ r.«matches».map (fun mt => mt.path)) := by
  constructor
  · intro env opts b1 b2
    rfl
  · intro env opts r h
    refine ⟨dedupAdj (List.mergeSort (r.«matches».map (fun mt => mt.path))
        (fun a b => a ≤ b)), ?_, ?_, ?_⟩
    · simp [search_files, h, Except.map]
    · exact (sortDedup_spec _).1
    · intro p
      exact (sortDedup_spec _).2 p

/-- C6 witness: the view part applied to the one-file tree. -/
theorem files_with_matches_view_wit :
    ∃ l, search_files envA optsBase = Except.ok l ∧
      l.Pairwise (fun a b => a < b) ∧
      ∀ p, p ∈ l ↔ p ∈ resA.«matches».map (fun mt => mt.path) :=
  files_with_matches_ignored_and_view.2 envA optsBase resA rfl

/-! ## Claim C7 -/

/-- C7: (1) the outcome of a handle's `search` does not depend on the
accumulator state the handle carries — every call starts by clearing it;
(2) the one-shot `search` is construct-then-search with the same request,
so handle and one-shot agree on identical requests; (3) in particular a
second call on the handle returned by a successful first call behaves as a
call on a fresh handle: no matches or file counts leak across calls. -/
theorem handle_oneshot_fresh_state :
    (∀ (env : Env) (opts : RipgrepOptions) (s : RipgrepSearcher)
       (r : List RipgrepMatch) (n : Nat),
      RipgrepSearcher.search env { s with results := r, files_searched := n } opts =
        RipgrepSearcher.search env s opts)
    ∧ (∀ (env : Env) (opts : RipgrepOptions),
      search env opts =
        (RipgrepSearcher.search env (RipgrepSearcher.new opts) opts).map (fun p => p.2))
    ∧ (∀ (env : Env) (o1 o2 : RipgrepOptions) (s s1 : RipgrepSearcher)
       (res : RipgrepResult),
      RipgrepSearcher.search env s o1 = Except.ok (s1, res) →
      RipgrepSearcher.search env s1 o2 = RipgrepSearcher.search env s o2) := by
  have h1 : ∀ (env : Env) (opts : RipgrepOptions) (s : RipgrepSearcher)
      (r : List RipgrepMatch) (n : Nat),
      RipgrepSearcher.search env { s with results := r, files_searched := n } opts =
        RipgrepSearcher.search env s opts := by
    intro env opts s r n
    rfl
  refine ⟨h1, fun env opts => rfl, ?_⟩
  intro env o1 o2 s s1 res h
  simp only [RipgrepSearcher.search] at h
  rcases hsl : searchLoop env s.case_insensitive s.before_context s.after_context
      s.max_results o1.pattern o1.glob (env.walk (walkConfigOf o1)) [] 0 0
    with e | ⟨res2, f, c⟩
  · rw [hsl] at h
    cases h
  · rw [hsl] at h
    simp only [Except.ok.injEq, Prod.mk.injEq] at h
    have hs1 : s1 = { s with results := res2, files_searched := f } := h.1.symm
    subst hs1
    exact h1 env o2 s res2 f

/-- C7 witness: after a successful first call over the one-file tree, the
returned handle and a fresh handle give the same answer to the next call. -/
theorem handle_oneshot_fresh_state_wit :
    RipgrepSearcher.search envA
        { RipgrepSearcher.new optsBase with results := [mA], files_searched := 1 }
        optsCap1 =
      RipgrepSearcher.search envA (RipgrepSearcher.new optsBase) optsCap1 :=
  handle_oneshot_fresh_state.2.2 envA optsBase optsCap1 (RipgrepSearcher.new optsBase)
    { RipgrepSearcher.new optsBase with results := [mA], files_searched := 1 } resA rfl

/-! ## Claim C10 -/

/-- C10: a handle's `search` reads only `pattern`, `path`, `glob`,
`max_depth` and `include_hidden` from the per-call options —
`case_insensitive`, `before_context`, `after_context` and `max_results`
(and `files_with_matches`) come from the construction-time configuration
frozen in the handle, so two calls whose options agree on those five
fields return identical results. -/
theorem search_uses_ctor_config (env : Env) (self : RipgrepSearcher)
    (o1 o2 : RipgrepOptions)
    (h1 : o1.pattern = o2.pattern) (h2 : o1.path = o2.path) (h3 : o1.glob = o2.glob)
    (h4 : o1.max_depth = o2.max_depth) (h5 : o1.include_hidden = o2.include_hidden) :
    RipgrepSearcher.search env self o1 = RipgrepSearcher.search env self o2 := by
  simp only [RipgrepSearcher.search, walkConfigOf]
  rw [h1, h2, h3, h4, h5]

/-- C10 witness: two calls on the same handle differing only in
`case_insensitive`, `before_context`, `after_context` and `max_results`
coincide. -/
theorem search_uses_ctor_config_wit :
    RipgrepSearcher.search envA (RipgrepSearcher.new optsBase)
        { optsBase with case_insensitive := some true, before_context := some 2,
                        after_context := some 3, max_results := some 7 } =
      RipgrepSearcher.search envA (RipgrepSearcher.new optsBase) optsBase :=
  search_uses_ctor_config envA (RipgrepSearcher.new optsBase)
    { optsBase with case_insensitive := some true, before_context := some 2,
                    after_context := some 3, max_results := some 7 }
    optsBase rfl rfl rfl rfl rfl
